import Mathlib

/-!
Shallow embedding of `src/blurred.py` (AiPhotos).

The program walks a directory tree, evaluates each image's Laplacian variance
through `cv2`, classifies images as blurry against a threshold, and writes one
CSV per directory.  The opaque external collaborators are modelled as function
parameters:

* the filesystem walk (`os.walk`) is a `List DirListing`, the per-directory
  listings in visitation order;
* the `cv2` pipeline (`imread` to grayscale, `Laplacian`, `.var()`) is a
  parameter `decodeVar : String → Option ℚ`: `none` means `cv2.imread`
  returned `None` (unreadable or undecodable file), `some v` the Laplacian
  variance of the decoded image.  IEEE-754 binary64 values are modelled as
  rationals; the comparisons and renderings the program performs are exact on
  the values concerned.
-/

/-- Error raised by the `cv2` library when `cv2.Laplacian` is applied to the
`None` that `cv2.imread` returns for an unreadable or undecodable file; the
source has no handler for it. -/
inductive CvError where
  | laplacianOnNone (image_path : String) : CvError
deriving DecidableEq

/-- One directory visited by `os.walk`: its path (the `root` variable of the
loop) and the names of the regular files directly inside it (the `files`
list, non-recursive; subdirectory contents appear in their own listing). -/
structure DirListing where
  path : String
  files : List String
deriving DecidableEq

/-- Python `os.path.splitext(name)[1]` for a bare file name (no separators):
the suffix starting at the last dot, except that a run of leading dots never
begins an extension (so `.jpg` as a whole file name has extension `""`). -/
def splitextExt (name : String) : String :=
  let cs := name.data
  match cs.reverse.findIdx? (fun c => c == '.') with
  | none => ""
  | some k =>
    let d := cs.length - 1 - k
    if (cs.take d).any (fun c => c != '.') then String.mk (cs.drop d) else ""

/-- Python `os.path.join(a, b)` for POSIX paths: an absolute `b` replaces
`a`; otherwise the separator is inserted unless `a` is empty or already ends
with one. -/
def pathJoin (a b : String) : String :=
  if b.data.head? = some '/' then b
  else if a.data = [] ∨ a.data.getLast? = some '/' then a ++ b
  else a ++ "/" ++ b

/-- Python `os.path.basename(p)`: the suffix of `p` after the last `/`. -/
def basename (p : String) : String :=
  String.mk ((p.data.reverse.takeWhile (fun c => c != '/')).reverse)

/-- Default `file_types` of the source (also passed explicitly by
`__main__`). -/
def default_file_types : List String :=
  [".jpg", ".jpeg", ".png", ".tiff", ".NEF"]

/-- Embedding of `is_blurry` (src/blurred.py:49-64): load the image through
the `cv2` pipeline and compare the Laplacian variance with the threshold.
When `cv2.imread` returns `None` the subsequent `cv2.Laplacian` call raises,
modelled as `Except.error`; there is no handler in the source. -/
def is_blurry (decodeVar : String → Option ℚ) (image_path : String)
    (threshold : ℚ) : Except CvError (Bool × ℚ) :=
  match decodeVar image_path with
  | none => Except.error (CvError.laplacianOnNone image_path)
  | some laplacian_var => Except.ok (decide (laplacian_var < threshold), laplacian_var)

/-- One result tuple `(image_path, file_name, blurry, laplacian)` appended at
src/blurred.py:87; field names follow the CSV columns. -/
structure ImageRecord where
  full_path : String
  file_name : String
  is_blurry : Bool
  sharpness_variance : ℚ
deriving DecidableEq

/-- Embedding of the list comprehension at src/blurred.py:80: the files of
one directory whose `splitext` extension is (case-sensitively) in
`file_types`, joined onto the directory path. -/
def selectImages (root : String) (files : List String)
    (file_types : List String) : List String :=
  (files.filter (fun file => decide (splitextExt file ∈ file_types))).map
    (fun file => pathJoin root file)

/-- Embedding of the executor block at src/blurred.py:81-87: futures are
iterated in submission order; the first `future.result()` that re-raises
aborts collection (the partial `results` list is discarded by the exception).
On success each image contributes one record. -/
def evalImages (decodeVar : String → Option ℚ) (threshold : ℚ) :
    List String → Except CvError (List ImageRecord)
  | [] => Except.ok []
  | image_path :: rest =>
    match is_blurry decodeVar image_path threshold with
    | Except.error e => Except.error e
    | Except.ok (blurry, laplacian) =>
      match evalImages decodeVar threshold rest with
      | Except.error e => Except.error e
      | Except.ok rs =>
        Except.ok ({ full_path := image_path, file_name := basename image_path,
                     is_blurry := blurry, sharpness_variance := laplacian } :: rs)

/-- Sort key of `results.sort(key=lambda x: x[3])`: comparison on the
Laplacian variance. -/
def varLE (a b : ImageRecord) : Prop :=
  a.sharpness_variance ≤ b.sharpness_variance

instance : DecidableRel varLE :=
  fun a b => inferInstanceAs (Decidable (a.sharpness_variance ≤ b.sharpness_variance))

instance : IsTotal ImageRecord varLE :=
  ⟨fun a b => le_total a.sharpness_variance b.sharpness_variance⟩

instance : IsTrans ImageRecord varLE :=
  ⟨fun _ _ _ h₁ h₂ => le_trans h₁ h₂⟩

/-- Embedding of `results.sort(key=lambda x: x[3], reverse=False)`
(src/blurred.py:89).  CPython `list.sort` is specified as a stable ascending
sort; insertion sort on `varLE` is extensionally that sort. -/
def sortResults (results : List ImageRecord) : List ImageRecord :=
  List.insertionSort varLE results

/-- Python `str` of a `bool`, as applied by `csv.writer` to the third tuple
element. -/
def pyStrBool (b : Bool) : String :=
  if b then "True" else "False"

/-- Python `repr` of a `float`, as applied by `csv.writer` to the variance.
Modelled for binary64 values whose exact value is a decimal with at most 17
fractional digits (all values appearing in this development): such a value
prints as its exact decimal, an integral value with a trailing `.0`. -/
def pyFloatRepr (q : ℚ) : String :=
  match (List.range 18).find? (fun k => (10 : Nat) ^ k % q.den == 0) with
  | some 0 => toString q.num ++ (".0")
  | some k =>
    let n : Int := q.num * (((10 : Nat) ^ k) / q.den : Nat)
    let sgn : String := if n < 0 then ("-") else ("")
    let s0 := toString n.natAbs
    let s := String.mk (List.replicate (k + 1 - s0.length) '0') ++ s0
    sgn ++ String.mk (s.data.take (s.data.length - k)) ++ (".") ++ String.mk (s.data.drop (s.data.length - k))
  | none => toString q.num ++ ("/") ++ toString q.den

/-- Field rendering of `csv.writer` with the default QUOTE_MINIMAL dialect:
a field containing a delimiter, quote or line-break character is quoted with
embedded quotes doubled, any other field is written verbatim. -/
def csvField (s : String) : String :=
  if s.data.any (fun c => c == ',' || c == '"' || c == '\r' || c == '\n') then
    ("\"") ++ String.mk (s.data.flatMap (fun c => if c == '"' then ['"', '"'] else [c])) ++ ("\"")
  else s

/-- One line produced by `csv.writer.writerow`: the rendered fields joined by
commas (the trailing CRLF terminator is left off the modelled line). -/
def csvRow (cells : List String) : String :=
  String.intercalate (",") (cells.map csvField)

/-- Header list of `to_csv` (src/blurred.py:26). -/
def headers : List String :=
  ["Full Path", "File Name", "Is Blurry", "Laplacian Variance"]

/-- Cells of one data row: `csv.writer` stringifies the four tuple elements
`(full_path, file_name, blurry, laplacian)`. -/
def recordCells (r : ImageRecord) : List String :=
  [r.full_path, r.file_name, pyStrBool r.is_blurry, pyFloatRepr r.sharpness_variance]

/-- Fixed output file name of `to_csv`. -/
def csv_filename : String :=
  "image_analysis_results.csv"

/-- A written CSV file: its path and its lines (header first). -/
structure CsvFile where
  path : String
  lines : List String
deriving DecidableEq

/-- Embedding of `to_csv` (src/blurred.py:17-31): header row then one row per
record, at `os.path.join(dir_path, filename)`. -/
def to_csv (data : List ImageRecord) (dir_path : String) : CsvFile :=
  { path := pathJoin dir_path csv_filename
  , lines := csvRow headers :: data.map (fun r => csvRow (recordCells r)) }

/-- Processing of one `os.walk` entry by `analyze_images_blurriness`
(src/blurred.py:78-91): select the matching files, evaluate them all (an
exception from any future aborts the directory), optionally sort, and write
a CSV only when exporting is on and `results` is non-empty. -/
def processDir (decodeVar : String → Option ℚ) (file_types : List String)
    (threshold : ℚ) (sort export_to_csv : Bool) (d : DirListing) :
    Except CvError (Option CsvFile) :=
  match evalImages decodeVar threshold (selectImages d.path d.files file_types) with
  | Except.error e => Except.error e
  | Except.ok results =>
    let results := if sort then sortResults results else results
    if export_to_csv && !results.isEmpty then Except.ok (some (to_csv results d.path))
    else Except.ok none

/-- Embedding of `analyze_images_blurriness` (src/blurred.py:67-91) over a
walk: directories are processed strictly in sequence; the CSV files written
so far are accumulated, and an unhandled exception in a directory aborts the
remainder of the run (files already written persist).  The second component
is the exception that escaped, if any. -/
def analyze_images_blurriness (decodeVar : String → Option ℚ)
    (file_types : List String) (threshold : ℚ) (sort export_to_csv : Bool) :
    List DirListing → List CsvFile × Option CvError
  | [] => ([], none)
  | d :: rest =>
    match processDir decodeVar file_types threshold sort export_to_csv d with
    | Except.error e => ([], some e)
    | Except.ok none => analyze_images_blurriness decodeVar file_types threshold sort export_to_csv rest
    | Except.ok (some f) =>
      let tail := analyze_images_blurriness decodeVar file_types threshold sort export_to_csv rest
      (f :: tail.1, tail.2)

/-- Behaviour of `os.walk` on a nonexistent or unreadable root: with the
default `onerror=None` the initial `scandir` failure is swallowed and the
generator yields no entries at all. -/
def walkOfMissingRoot : List DirListing := []

/-- Factorisation of the `cv2` pipeline through the file contents:
`fileBytes` models the operating-system read (`none` when unreadable) and
`cvVar` the decode-to-grayscale, Laplacian and variance computation on the
byte content (`none` when undecodable); `cv2.imread` returns `None` in
either failure case. -/
def imreadVar (fileBytes : String → Option (List Nat))
    (cvVar : List Nat → Option ℚ) (p : String) : Option ℚ :=
  (fileBytes p).bind cvVar

/-- Observable event of one run: completion of one image evaluation inside a
directory, or the write of a directory's CSV report. -/
inductive Event where
  | eval (dir : String) (image : String) : Event
  | write (dir : String) : Event
deriving DecidableEq

/-- Directory an event belongs to. -/
def Event.dirOf : Event → String
  | Event.eval d _ => d
  | Event.write d => d

/-- Event trace of `analyze_images_blurriness` over a walk.  For each
directory the submitted evaluations complete in some scheduler-chosen order
`sched d` inside the `with ThreadPoolExecutor` block; the block joins all
futures before it is left, so the `to_csv` call (when it happens) follows
them, and the loop moves to the next directory only afterwards.  An
unhandled exception ends the run after the directory's futures finish. -/
def runTrace (decodeVar : String → Option ℚ) (file_types : List String)
    (threshold : ℚ) (sort export_to_csv : Bool) (sched : DirListing → List String) :
    List DirListing → List Event
  | [] => []
  | d :: rest =>
    let evs := (sched d).map (fun img => Event.eval d.path img)
    match processDir decodeVar file_types threshold sort export_to_csv d with
    | Except.error _ => evs
    | Except.ok none =>
      evs ++ runTrace decodeVar file_types threshold sort export_to_csv sched rest
    | Except.ok (some _) =>
      evs ++ Event.write d.path :: runTrace decodeVar file_types threshold sort export_to_csv sched rest

/-- Concrete `cv2` pipeline used in the scenario theorems: `a.jpg` decodes
with Laplacian variance 40, `b.png` with variance 250, every other file
(such as the corrupt `c.jpg`) is undecodable. -/
def decodeDemo : String → Option ℚ := fun p =>
  if p = "/d/a.jpg" then some 40 else if p = "/d/b.png" then some 250 else none

/-- Directory of the good-files scenario. -/
def dirGood : DirListing := ⟨"/d", ["a.jpg", "b.png"]⟩

/-- Walk of the good-files scenario. -/
def walkGood : List DirListing := [dirGood]

/-- Directory of the corrupt-file scenario: `c.jpg` sits between the two
good files. -/
def dirCorrupt : DirListing := ⟨"/d", ["a.jpg", "c.jpg", "b.png"]⟩

/-- Walk of the corrupt-file scenario. -/
def walkCorrupt : List DirListing := [dirCorrupt]

/-- Records the evaluator produces for the good-files scenario at
threshold 100. -/
def goodRecords : List ImageRecord :=
  [{ full_path := "/d/a.jpg", file_name := "a.jpg", is_blurry := true, sharpness_variance := 40 },
   { full_path := "/d/b.png", file_name := "b.png", is_blurry := false, sharpness_variance := 250 }]

/-- Helper: membership and shape of the records produced by `evalImages` on
success: each record comes from one input path, carries its basename, and is
classified by comparing its variance with the threshold. -/
theorem evalImages_ok_forall (decodeVar : String → Option ℚ) (threshold : ℚ) :
    ∀ (images : List String) (rs : List ImageRecord),
      evalImages decodeVar threshold images = Except.ok rs →
      ∀ r ∈ rs, r.full_path ∈ images ∧ r.file_name = basename r.full_path ∧
        r.is_blurry = decide (r.sharpness_variance < threshold)
  | [], rs, h => by
    simp only [evalImages, Except.ok.injEq] at h
    subst h
    intro r hr
    cases hr
  | image_path :: rest, rs, h => by
    intro r hr
    simp only [evalImages, is_blurry] at h
    cases hd : decodeVar image_path with
    | none => rw [hd] at h; cases h
    | some v =>
      rw [hd] at h
      cases he : evalImages decodeVar threshold rest with
      | error e => rw [he] at h; cases h
      | ok rs' =>
        rw [he] at h
        simp only [Except.ok.injEq] at h
        subst h
        rcases List.mem_cons.mp hr with h1 | h2
        · subst h1
          exact ⟨List.mem_cons_self _ _, rfl, rfl⟩
        · obtain ⟨hm, hb, hc⟩ := evalImages_ok_forall decodeVar threshold rest rs' he r h2
          exact ⟨List.mem_cons_of_mem _ hm, hb, hc⟩

/-- C1: for every record returned by the evaluator and placed in the results,
and for every threshold, the boolean field equals `variance < threshold`; an
image whose variance exactly equals the threshold is classified not blurry
(the source takes the `else` branch of `laplacian_var < threshold`). -/
theorem evaluator_classifies_by_threshold :
    (∀ (decodeVar : String → Option ℚ) (threshold : ℚ) (images : List String)
       (rs : List ImageRecord),
       evalImages decodeVar threshold images = Except.ok rs →
       ∀ r ∈ rs, r.is_blurry = decide (r.sharpness_variance < threshold)) ∧
    (∀ (decodeVar : String → Option ℚ) (p : String) (t : ℚ),
       decodeVar p = some t →
       is_blurry decodeVar p t = Except.ok (false, t)) := by
  constructor
  · intro decodeVar threshold images rs h r hr
    exact (evalImages_ok_forall decodeVar threshold images rs h r hr).2.2
  · intro decodeVar p t hd
    simp [is_blurry, hd]

/-- Witness for C1 at the two-image scenario and at an exact-threshold
image. -/
theorem evaluator_classifies_by_threshold_witness :
    (∀ r ∈ goodRecords, r.is_blurry = decide (r.sharpness_variance < (100 : ℚ))) ∧
    is_blurry (fun _ => some 100) ("x.jpg") 100 = Except.ok (false, 100) :=
  ⟨evaluator_classifies_by_threshold.1 decodeDemo 100
      ["/d/a.jpg", "/d/b.png"] goodRecords rfl,
   evaluator_classifies_by_threshold.2 (fun _ => some 100) ("x.jpg") 100 rfl⟩

/-- Helper: a selected image that fails to decode makes the whole directory
evaluation raise. -/
theorem evalImages_error_of_decode_none (decodeVar : String → Option ℚ)
    (threshold : ℚ) :
    ∀ (images : List String) (p : String), p ∈ images → decodeVar p = none →
      ∃ e, evalImages decodeVar threshold images = Except.error e
  | [], p, hp, _ => absurd hp (List.not_mem_nil p)
  | q :: rest, p, hp, hnone => by
    cases hd : decodeVar q with
    | none =>
      exact ⟨CvError.laplacianOnNone q, by simp [evalImages, is_blurry, hd]⟩
    | some v =>
      have hpr : p ∈ rest := by
        rcases List.mem_cons.mp hp with h1 | h2
        · subst h1; rw [hd] at hnone; cases hnone
        · exact h2
      obtain ⟨e, he⟩ := evalImages_error_of_decode_none decodeVar threshold rest p hpr hnone
      exact ⟨e, by simp [evalImages, is_blurry, hd, he]⟩

/-- C2 counterexample: with the corrupt `c.jpg` between two good files, the
run does not skip the file with a warning and write a two-row CSV: the
unhandled `cv2` exception aborts the whole run and no CSV is written at
all.  No `ImageDecodeError` exists in the source. -/
theorem decode_failure_not_skipped :
    analyze_images_blurriness decodeDemo default_file_types 100 true true walkCorrupt =
      ([], some (CvError.laplacianOnNone ("/d/c.jpg"))) := by decide

/-- C2 amended: an unreadable, corrupt or undecodable image makes the
library call raise; the exception is unhandled, so the directory's results
are discarded, no CSV is written for it, and the run aborts instead of
continuing. -/
theorem decode_failure_aborts_run :
    (∀ (decodeVar : String → Option ℚ) (file_types : List String) (threshold : ℚ)
       (sortb exportb : Bool) (d : DirListing) (p : String),
       p ∈ selectImages d.path d.files file_types → decodeVar p = none →
       ∃ e, processDir decodeVar file_types threshold sortb exportb d = Except.error e) ∧
    (∀ (decodeVar : String → Option ℚ) (file_types : List String) (threshold : ℚ)
       (sortb exportb : Bool) (d : DirListing) (rest : List DirListing) (e : CvError),
       processDir decodeVar file_types threshold sortb exportb d = Except.error e →
       analyze_images_blurriness decodeVar file_types threshold sortb exportb (d :: rest) =
         ([], some e)) := by
  constructor
  · intro decodeVar file_types threshold sortb exportb d p hp hnone
    obtain ⟨e, he⟩ := evalImages_error_of_decode_none decodeVar threshold
      (selectImages d.path d.files file_types) p hp hnone
    exact ⟨e, by simp [processDir, he]⟩
  · intro decodeVar file_types threshold sortb exportb d rest e hpd
    simp [analyze_images_blurriness, hpd]

/-- Witness for C2's amended statement at the corrupt-file scenario. -/
theorem decode_failure_aborts_run_witness :
    (∃ e, processDir decodeDemo default_file_types 100 true true dirCorrupt = Except.error e) ∧
    analyze_images_blurriness decodeDemo default_file_types 100 true true
      (dirCorrupt :: []) = ([], some (CvError.laplacianOnNone ("/d/c.jpg"))) :=
  ⟨decode_failure_aborts_run.1 decodeDemo default_file_types 100 true true dirCorrupt
      ("/d/c.jpg") (by decide) (by decide),
   decode_failure_aborts_run.2 decodeDemo default_file_types 100 true true dirCorrupt []
      (CvError.laplacianOnNone ("/d/c.jpg")) rfl⟩

/-- C3 counterexample: on a nonexistent root the run does not fail at all —
`os.walk` silently yields nothing, the function returns normally with no
error, and no `DirectoryAccessError` exists in the source.  (The other half
of the claim, that no CSV is written anywhere, does hold.) -/
theorem missing_root_not_an_error :
    analyze_images_blurriness (fun _ => none) default_file_types 100 true true
      walkOfMissingRoot = ([], none) := rfl

/-- C3 amended: for an unreadable or nonexistent root, `os.walk` yields no
entries, so the run completes silently: no error is raised and no CSV file
is written anywhere. -/
theorem missing_root_silent_empty_run (decodeVar : String → Option ℚ)
    (file_types : List String) (threshold : ℚ) (sortb exportb : Bool) :
    analyze_images_blurriness decodeVar file_types threshold sortb exportb
      walkOfMissingRoot = ([], none) := rfl

/-- C5: a directory none of whose files matches the extension set gets no
CSV file written into it, whatever the other configuration flags are. -/
theorem empty_results_no_csv (decodeVar : String → Option ℚ)
    (file_types : List String) (threshold : ℚ) (sortb exportb : Bool)
    (d : DirListing) (h : ∀ f ∈ d.files, splitextExt f ∉ file_types) :
    processDir decodeVar file_types threshold sortb exportb d = Except.ok none := by
  have hsel : selectImages d.path d.files file_types = [] := by
    simp only [selectImages, List.map_eq_nil_iff, List.filter_eq_nil_iff,
      decide_eq_true_eq]
    exact h
  cases sortb <;>
    simp [processDir, hsel, evalImages, sortResults, List.insertionSort]

/-- Witness for C5: a directory holding only a text file gets no CSV. -/
theorem empty_results_no_csv_witness :
    processDir decodeDemo default_file_types 100 true true
      ⟨"/d", ["notes.txt"]⟩ = Except.ok none :=
  empty_results_no_csv decodeDemo default_file_types 100 true true
    ⟨"/d", ["notes.txt"]⟩ (by decide)

/-- C7: the files selected in a directory are exactly those directly-listed
files whose `splitext` extension is, case-sensitively, in the default set;
in particular `photo.JPG` and `photo.nef` are never selected. -/
theorem selection_exact_case_sensitive :
    (∀ (root : String) (files : List String) (p : String),
       p ∈ selectImages root files default_file_types ↔
         ∃ f ∈ files, splitextExt f ∈ default_file_types ∧ p = pathJoin root f) ∧
    splitextExt ("photo.JPG") ∉ default_file_types ∧
    splitextExt ("photo.nef") ∉ default_file_types := by
  refine ⟨?_, by decide, by decide⟩
  intro root files p
  simp only [selectImages, List.mem_map, List.mem_filter, decide_eq_true_eq]
  constructor
  · rintro ⟨f, ⟨hf, hext⟩, hp⟩
    exact ⟨f, hf, hext, hp.symm⟩
  · rintro ⟨f, hf, hext, hp⟩
    exact ⟨f, ⟨hf, hext⟩, hp.symm⟩

/-- C8: evaluation is deterministic — the `cv2` pipeline is a function of
the file's bytes, so two successful evaluations of identical bytes with the
same threshold yield the same `(is_blurry, variance)` pair. -/
theorem evaluate_deterministic (fileBytes : String → Option (List Nat))
    (cvVar : List Nat → Option ℚ) (p₁ p₂ : String) (t : ℚ)
    (b₁ b₂ : Bool) (v₁ v₂ : ℚ)
    (hbytes : fileBytes p₁ = fileBytes p₂)
    (h₁ : is_blurry (imreadVar fileBytes cvVar) p₁ t = Except.ok (b₁, v₁))
    (h₂ : is_blurry (imreadVar fileBytes cvVar) p₂ t = Except.ok (b₂, v₂)) :
    b₁ = b₂ ∧ v₁ = v₂ := by
  have hsame : imreadVar fileBytes cvVar p₂ = imreadVar fileBytes cvVar p₁ := by
    simp [imreadVar, hbytes]
  rw [is_blurry, hsame] at h₂
  rw [is_blurry] at h₁
  cases hv : imreadVar fileBytes cvVar p₁ with
  | none => rw [hv] at h₁; cases h₁
  | some v =>
    rw [hv] at h₁ h₂
    simp only [Except.ok.injEq, Prod.mk.injEq] at h₁ h₂
    exact ⟨h₁.1.symm.trans h₂.1, h₁.2.symm.trans h₂.2⟩

/-- Witness for C8: two distinct paths with identical bytes evaluate to the
same pair. -/
theorem evaluate_deterministic_witness : (true = true ∧ (40 : ℚ) = 40) :=
  evaluate_deterministic (fun _ => some [7]) (fun _ => some 40)
    ("x.jpg") ("y.jpg") 100 true true 40 40 rfl rfl rfl

/-- C6 counterexample: in the scenario (a.jpg variance 40, b.png variance
250, threshold 100) the data rows `csv.writer` produces are
`/d/a.jpg,a.jpg,True,40.0` and `/d/b.png,b.png,False,250.0` — four columns,
Python capitalised booleans, `repr`-rendered floats — not `a.jpg,true,40.00`
and `b.png,false,250.00`; the header line carries no spaces after the
commas. -/
theorem csv_scenario_rows_differ :
    analyze_images_blurriness decodeDemo default_file_types 100 true true walkGood =
      ([⟨"/d/image_analysis_results.csv",
         ["Full Path,File Name,Is Blurry,Laplacian Variance",
          "/d/a.jpg,a.jpg,True,40.0",
          "/d/b.png,b.png,False,250.0"]⟩], none) ∧
    ("/d/a.jpg,a.jpg,True,40.0" : String) ≠ "a.jpg,true,40.00" := by
  constructor
  · decide
  · decide

/-- C6 amended: every CSV has the fixed four-column header
`Full Path,File Name,Is Blurry,Laplacian Variance`, is placed at
`<directory>/image_analysis_results.csv`, and has exactly one data row per
record; in the scenario the rows are `/d/a.jpg,a.jpg,True,40.0` then
`/d/b.png,b.png,False,250.0`, in that order. -/
theorem csv_format_and_rows :
    (∀ (data : List ImageRecord) (dir_path : String),
       (to_csv data dir_path).path = pathJoin dir_path csv_filename ∧
       (to_csv data dir_path).lines.length = data.length + 1 ∧
       (to_csv data dir_path).lines.head? =
         some ("Full Path,File Name,Is Blurry,Laplacian Variance")) ∧
    analyze_images_blurriness decodeDemo default_file_types 100 true true walkGood =
      ([⟨"/d/image_analysis_results.csv",
         ["Full Path,File Name,Is Blurry,Laplacian Variance",
          "/d/a.jpg,a.jpg,True,40.0",
          "/d/b.png,b.png,False,250.0"]⟩], none) := by
  refine ⟨?_, by decide⟩
  intro data dir_path
  refine ⟨rfl, by simp [to_csv], rfl⟩

/-- Helper: filtering on one variance value commutes with an ordered
insertion: elements passed over by the insertion have strictly smaller
variance, so they never match the inserted element's value. -/
theorem filter_orderedInsert (q : ℚ) (a : ImageRecord) :
    ∀ l : List ImageRecord,
      (List.orderedInsert varLE a l).filter (fun r => decide (r.sharpness_variance = q)) =
        if a.sharpness_variance = q
        then a :: l.filter (fun r => decide (r.sharpness_variance = q))
        else l.filter (fun r => decide (r.sharpness_variance = q))
  | [] => by
    by_cases ha : a.sharpness_variance = q <;>
      simp [List.orderedInsert, List.filter, ha]
  | b :: l => by
    by_cases hab : varLE a b
    · by_cases ha : a.sharpness_variance = q <;>
        simp [List.orderedInsert, hab, List.filter_cons, ha]
    · have hba : b.sharpness_variance < a.sharpness_variance :=
        lt_of_not_le hab
      by_cases ha : a.sharpness_variance = q
      · have hb : ¬ b.sharpness_variance = q := by
          rw [← ha]; exact ne_of_lt hba
        simp [List.orderedInsert, hab, List.filter_cons, hb, ha,
          filter_orderedInsert q a l]
      · simp [List.orderedInsert, hab, List.filter_cons, ha,
          filter_orderedInsert q a l]

/-- Helper: the sort is stable — restricting the sorted list to the records
of any one variance value gives them back in their original order. -/
theorem filter_sortResults (q : ℚ) :
    ∀ l : List ImageRecord,
      (sortResults l).filter (fun r => decide (r.sharpness_variance = q)) =
        l.filter (fun r => decide (r.sharpness_variance = q))
  | [] => rfl
  | a :: l => by
    have ih := filter_sortResults q l
    simp only [sortResults] at ih ⊢
    show (List.orderedInsert varLE a (List.insertionSort varLE l)).filter _ = _
    rw [filter_orderedInsert q a (List.insertionSort varLE l)]
    by_cases ha : a.sharpness_variance = q <;>
      simp [List.filter_cons, ha, ih]

/-- C4: with sorting enabled the results are stable-sorted ascending by
variance before writing: adjacent output records are in nondecreasing
variance order, records of equal variance keep their discovery order, and
`processDir` writes exactly the sorted record list. -/
theorem sorted_output_ascending_stable :
    (∀ (results : List ImageRecord) (i : ℕ) (h : i + 1 < (sortResults results).length),
       ((sortResults results).get ⟨i, Nat.lt_of_succ_lt h⟩).sharpness_variance ≤
         ((sortResults results).get ⟨i + 1, h⟩).sharpness_variance) ∧
    (∀ (results : List ImageRecord) (q : ℚ),
       (sortResults results).filter (fun r => decide (r.sharpness_variance = q)) =
         results.filter (fun r => decide (r.sharpness_variance = q))) ∧
    (∀ (decodeVar : String → Option ℚ) (file_types : List String) (threshold : ℚ)
       (d : DirListing) (results : List ImageRecord),
       evalImages decodeVar threshold (selectImages d.path d.files file_types) =
         Except.ok results →
       results ≠ [] →
       processDir decodeVar file_types threshold true true d =
         Except.ok (some (to_csv (sortResults results) d.path))) := by
  refine ⟨?_, fun results q => filter_sortResults q results, ?_⟩
  · intro results i h
    have hs : List.Sorted varLE (sortResults results) :=
      List.sorted_insertionSort varLE results
    exact hs.rel_get_of_lt (show (⟨i, Nat.lt_of_succ_lt h⟩ : Fin _) < ⟨i + 1, h⟩ from
      Fin.mk_lt_mk.mpr (Nat.lt_succ_self i))
  · intro decodeVar file_types threshold d results heval hne
    have hlen : (sortResults results).length = results.length :=
      (List.perm_insertionSort varLE results).length_eq
    have hemp : (sortResults results).isEmpty = false := by
      cases hr : sortResults results with
      | nil => exact absurd (List.length_eq_zero.mp (by rw [← hlen, hr]; rfl)) hne
      | cons x xs => rfl
    simp [processDir, heval, hemp]

/-- Witness for C4 at the two-record scenario. -/
theorem sorted_output_ascending_stable_witness :
    ((sortResults goodRecords).get ⟨0, by decide⟩).sharpness_variance ≤
      ((sortResults goodRecords).get ⟨1, by decide⟩).sharpness_variance ∧
    processDir decodeDemo default_file_types 100 true true dirGood =
      Except.ok (some (to_csv (sortResults goodRecords) "/d")) :=
  ⟨sorted_output_ascending_stable.1 goodRecords 0 (by decide),
   sorted_output_ascending_stable.2.2 decodeDemo default_file_types 100 dirGood
     goodRecords rfl (by decide)⟩

/-- Helper: `takeWhile` passes over a prefix all of whose elements satisfy
the predicate. -/
theorem takeWhile_append_of_all {α : Type} (p : α → Bool) :
    ∀ (l₁ l₂ : List α), (∀ a ∈ l₁, p a = true) →
      (l₁ ++ l₂).takeWhile p = l₁ ++ l₂.takeWhile p
  | [], l₂, _ => by simp
  | a :: l₁, l₂, h => by
    have ha : p a = true := h a (List.mem_cons_self a l₁)
    simp only [List.cons_append, List.takeWhile_cons, ha, if_true]
    rw [takeWhile_append_of_all p l₁ l₂ (fun b hb => h b (List.mem_cons_of_mem a hb))]

/-- Helper: `takeWhile` keeps a list all of whose elements satisfy the
predicate. -/
theorem takeWhile_eq_self_of_all {α : Type} (p : α → Bool) :
    ∀ l : List α, (∀ a ∈ l, p a = true) → l.takeWhile p = l
  | [], _ => rfl
  | a :: l, h => by
    have ha : p a = true := h a (List.mem_cons_self a l)
    simp only [List.takeWhile_cons, ha, if_true]
    rw [takeWhile_eq_self_of_all p l (fun b hb => h b (List.mem_cons_of_mem a hb))]

/-- Helper: `os.path.basename` undoes `os.path.join` for a nonempty,
separator-free final component. -/
theorem basename_pathJoin (a f : String)
    (hsep : ∀ c ∈ f.data, c ≠ '/') : basename (pathJoin a f) = f := by
  have hall : ∀ c ∈ f.data.reverse, (c != '/') = true := by
    intro c hc
    simpa using hsep c (List.mem_reverse.mp hc)
  have h1 : ¬ f.data.head? = some '/' := by
    intro hh
    cases hd : f.data with
    | nil => rw [hd] at hh; cases hh
    | cons c cs =>
      rw [hd] at hh
      have hc : c = '/' := by injection hh
      exact hsep c (hd ▸ List.mem_cons_self c cs) hc
  rw [pathJoin, if_neg h1]
  by_cases h2 : a.data = [] ∨ a.data.getLast? = some '/'
  · rw [if_pos h2]
    show String.mk (((a ++ f).data.reverse.takeWhile (fun c => c != '/')).reverse) = f
    rw [String.data_append, List.reverse_append]
    rw [takeWhile_append_of_all _ _ _ hall]
    have hrest : a.data.reverse.takeWhile (fun c => c != '/') = [] := by
      cases h2 with
      | inl hnil => rw [hnil]; rfl
      | inr hlast =>
        cases hr : a.data.reverse with
        | nil => rfl
        | cons c cs =>
          have hc : c = '/' := by
            have hhead := List.head?_reverse a.data
            rw [hr, hlast] at hhead
            injection hhead with hcc
          subst hc
          simp [List.takeWhile_cons]
    rw [hrest, List.append_nil, List.reverse_reverse]
  · rw [if_neg h2]
    show String.mk (((a ++ "/" ++ f).data.reverse.takeWhile (fun c => c != '/')).reverse) = f
    have hdata : (a ++ "/" ++ f).data = (a.data ++ ['/']) ++ f.data := by
      rw [String.data_append, String.data_append]
    rw [hdata, List.reverse_append, takeWhile_append_of_all _ _ _ hall]
    have hsl : ((a.data ++ ['/']).reverse).takeWhile (fun c => c != '/') = [] := by
      rw [List.reverse_append]
      simp [List.takeWhile_cons]
    rw [hsl, List.append_nil, List.reverse_reverse]

/-- C10: invariant of every written report — each record's full path is the
directory the CSV goes into joined with its separator-free file name (the
report and the images it describes are colocated), each record's file name
is the basename of its full path, and the CSV itself is placed inside that
same directory. -/
theorem rows_colocated_with_csv (decodeVar : String → Option ℚ)
    (file_types : List String) (threshold : ℚ) (sortb : Bool) (d : DirListing)
    (rs : List ImageRecord)
    (hfiles : ∀ f ∈ d.files, ∀ c ∈ f.data, c ≠ '/')
    (hok : evalImages decodeVar threshold (selectImages d.path d.files file_types) =
      Except.ok rs) :
    (∀ r ∈ (if sortb then sortResults rs else rs),
       r.file_name = basename r.full_path ∧
       r.full_path = pathJoin d.path r.file_name) ∧
    (∀ csv : CsvFile,
       processDir decodeVar file_types threshold sortb true d = Except.ok (some csv) →
       csv.path = pathJoin d.path csv_filename) := by
  have key : ∀ r ∈ rs, r.file_name = basename r.full_path ∧
      r.full_path = pathJoin d.path r.file_name := by
    intro r hr
    obtain ⟨hm, hb, _⟩ := evalImages_ok_forall decodeVar threshold _ rs hok r hr
    simp only [selectImages, List.mem_map, List.mem_filter] at hm
    obtain ⟨f, ⟨hf, _⟩, hp⟩ := hm
    have hbase : basename r.full_path = f := by
      rw [← hp]
      exact basename_pathJoin d.path f (hfiles f hf)
    refine ⟨hb, ?_⟩
    rw [hb, hbase]
    exact hp.symm
  constructor
  · intro r hr
    apply key
    cases sortb with
    | false => exact hr
    | true =>
      simp only [if_true, sortResults] at hr
      exact (List.mem_insertionSort varLE).mp hr
  · intro csv hcsv
    simp only [processDir, hok] at hcsv
    split at hcsv <;> split at hcsv <;> cases hcsv <;> rfl

/-- Witness for C10 at the two-image scenario. -/
theorem rows_colocated_with_csv_witness :
    (∀ r ∈ (if true then sortResults goodRecords else goodRecords),
       r.file_name = basename r.full_path ∧
       r.full_path = pathJoin ("/d") r.file_name) ∧
    (∀ csv : CsvFile,
       processDir decodeDemo default_file_types 100 true true dirGood =
         Except.ok (some csv) →
       csv.path = pathJoin ("/d") csv_filename) :=
  rows_colocated_with_csv decodeDemo default_file_types 100 true dirGood
    goodRecords (by decide) rfl

/-- Helper: every event of a run's trace belongs to one of the walked
directories. -/
theorem runTrace_dirOf_mem (decodeVar : String → Option ℚ)
    (file_types : List String) (threshold : ℚ) (sortb exportb : Bool)
    (sched : DirListing → List String) :
    ∀ (l : List DirListing) (e : Event),
      e ∈ runTrace decodeVar file_types threshold sortb exportb sched l →
      e.dirOf ∈ l.map DirListing.path
  | [], e, h => absurd h (List.not_mem_nil e)
  | d :: rest, e, h => by
    cases hpd : processDir decodeVar file_types threshold sortb exportb d with
    | error e0 =>
      have h' : e ∈ (sched d).map (fun img => Event.eval d.path img) := by
        simpa [runTrace, hpd] using h
      obtain ⟨img, _, he⟩ := List.mem_map.mp h'
      simp [← he, Event.dirOf]
    | ok o =>
      cases o with
      | none =>
        have h' : e ∈ (sched d).map (fun img => Event.eval d.path img) ++
            runTrace decodeVar file_types threshold sortb exportb sched rest := by
          simpa [runTrace, hpd] using h
        rcases List.mem_append.mp h' with h1 | h2
        · obtain ⟨img, _, he⟩ := List.mem_map.mp h1
          simp [← he, Event.dirOf]
        · have := runTrace_dirOf_mem decodeVar file_types threshold sortb exportb
            sched rest e h2
          simp only [List.map_cons]
          exact List.mem_cons_of_mem _ this
      | some f =>
        have h' : e ∈ (sched d).map (fun img => Event.eval d.path img) ++
            Event.write d.path ::
              runTrace decodeVar file_types threshold sortb exportb sched rest := by
          simpa [runTrace, hpd] using h
        rcases List.mem_append.mp h' with h1 | h2
        · obtain ⟨img, _, he⟩ := List.mem_map.mp h1
          simp [← he, Event.dirOf]
        · rcases List.mem_cons.mp h2 with h3 | h4
          · simp [h3, Event.dirOf]
          · have := runTrace_dirOf_mem decodeVar file_types threshold sortb exportb
              sched rest e h4
            simp only [List.map_cons]
            exact List.mem_cons_of_mem _ this

/-- Helper: a directory whose selected images all decode evaluates without
raising. -/
theorem evalImages_ok_of_decode (decodeVar : String → Option ℚ) (threshold : ℚ) :
    ∀ images : List String, (∀ p ∈ images, decodeVar p ≠ none) →
      ∃ rs, evalImages decodeVar threshold images = Except.ok rs
  | [], _ => ⟨[], rfl⟩
  | p :: rest, h => by
    cases hd : decodeVar p with
    | none => exact absurd hd (h p (List.mem_cons_self p rest))
    | some v =>
      obtain ⟨rs, hrs⟩ := evalImages_ok_of_decode decodeVar threshold rest
        (fun q hq => h q (List.mem_cons_of_mem p hq))
      exact ⟨{ full_path := p, file_name := basename p,
               is_blurry := decide (v < threshold), sharpness_variance := v } :: rs,
        by simp [evalImages, is_blurry, hd, hrs]⟩

/-- Helper: a directory whose selected images all decode is processed
without raising. -/
theorem processDir_ok_of_decode (decodeVar : String → Option ℚ)
    (file_types : List String) (threshold : ℚ) (sortb exportb : Bool)
    (d : DirListing)
    (h : ∀ p ∈ selectImages d.path d.files file_types, decodeVar p ≠ none) :
    ∃ o, processDir decodeVar file_types threshold sortb exportb d = Except.ok o := by
  obtain ⟨rs, hrs⟩ := evalImages_ok_of_decode decodeVar threshold _ h
  cases hpd : processDir decodeVar file_types threshold sortb exportb d with
  | ok o => exact ⟨o, rfl⟩
  | error e =>
    simp only [processDir, hrs] at hpd
    split at hpd <;> split at hpd <;> cases hpd

/-- C9: in every trace of the run, the events of each visited directory form
one contiguous block — the scheduler-ordered completions of all the
evaluations submitted for it, followed (when a report is written) by that
directory's single write event — and no event of any other directory occurs
inside the block.  Hence the Report Writer runs only after the full join of
its directory's evaluations, and no two directories' evaluation phases
overlap. -/
theorem writer_after_join_dirs_sequential (decodeVar : String → Option ℚ)
    (file_types : List String) (threshold : ℚ) (sortb exportb : Bool)
    (sched : DirListing → List String) :
    ∀ walk : List DirListing, (walk.map DirListing.path).Nodup →
      (∀ d' ∈ walk, ∀ p ∈ selectImages d'.path d'.files file_types,
        decodeVar p ≠ none) →
      ∀ d ∈ walk,
        ∃ pre post W,
          runTrace decodeVar file_types threshold sortb exportb sched walk =
            pre ++ ((sched d).map (fun img => Event.eval d.path img) ++ W) ++ post ∧
          (W = [] ∨ W = [Event.write d.path]) ∧
          (∀ e ∈ pre, e.dirOf ≠ d.path) ∧ (∀ e ∈ post, e.dirOf ≠ d.path) := by
  intro walk
  induction walk with
  | nil =>
    intro _ _ d hd
    cases hd
  | cons a rest ih =>
    intro hnd hok d hd
    have hnd' : (rest.map DirListing.path).Nodup :=
      (List.nodup_cons.mp (by simpa using hnd)).2
    have hnotin : a.path ∉ rest.map DirListing.path :=
      (List.nodup_cons.mp (by simpa using hnd)).1
    obtain ⟨o, ho⟩ := processDir_ok_of_decode decodeVar file_types threshold
      sortb exportb a (hok a (List.mem_cons_self a rest))
    rcases List.mem_cons.mp hd with rfl | hdrest
    · cases o with
      | none =>
        refine ⟨[], runTrace decodeVar file_types threshold sortb exportb sched rest,
          [], ?_, Or.inl rfl, ?_, ?_⟩
        · simp [runTrace, ho]
        · intro e he; cases he
        · intro e he hEq
          exact hnotin (hEq ▸ runTrace_dirOf_mem decodeVar file_types threshold
            sortb exportb sched rest e he)
      | some f =>
        refine ⟨[], runTrace decodeVar file_types threshold sortb exportb sched rest,
          [Event.write d.path], ?_, Or.inr rfl, ?_, ?_⟩
        · simp [runTrace, ho]
        · intro e he; cases he
        · intro e he hEq
          exact hnotin (hEq ▸ runTrace_dirOf_mem decodeVar file_types threshold
            sortb exportb sched rest e he)
    · have hadp : a.path ≠ d.path := by
        intro hEq
        exact hnotin (hEq ▸ List.mem_map_of_mem DirListing.path hdrest)
      obtain ⟨pre, post, W, htr, hW, hpre, hpost⟩ :=
        ih hnd' (fun d' hd' => hok d' (List.mem_cons_of_mem a hd')) d hdrest
      cases o with
      | none =>
        refine ⟨(sched a).map (fun img => Event.eval a.path img) ++ pre, post, W,
          ?_, hW, ?_, hpost⟩
        · simp [runTrace, ho, htr, List.append_assoc]
        · intro e he
          rcases List.mem_append.mp he with h1 | h2
          · obtain ⟨img, _, hei⟩ := List.mem_map.mp h1
            rw [← hei]
            exact hadp
          · exact hpre e h2
      | some f =>
        refine ⟨(sched a).map (fun img => Event.eval a.path img) ++
          Event.write a.path :: pre, post, W, ?_, hW, ?_, hpost⟩
        · simp [runTrace, ho, htr, List.append_assoc]
        · intro e he
          rcases List.mem_append.mp he with h1 | h2
          · obtain ⟨img, _, hei⟩ := List.mem_map.mp h1
            rw [← hei]
            exact hadp
          · rcases List.mem_cons.mp h2 with h3 | h4
            · rw [h3]
              exact hadp
            · exact hpre e h4

/-- Scheduler used in the C9 witness: evaluations complete in submission
order. -/
def schedDemo : DirListing → List String := fun d =>
  selectImages d.path d.files default_file_types

/-- Two-directory walk used in the C9 witness. -/
def walkTwo : List DirListing := [⟨"/d1", ["a.jpg"]⟩, ⟨"/d2", ["b.jpg"]⟩]

/-- Witness for C9 on a concrete two-directory walk. -/
theorem writer_after_join_dirs_sequential_witness :
    ∃ pre post W,
      runTrace (fun _ => some 40) default_file_types 100 true true schedDemo walkTwo =
        pre ++ ((schedDemo ⟨"/d1", ["a.jpg"]⟩).map
          (fun img => Event.eval ("/d1") img) ++ W) ++ post ∧
      (W = [] ∨ W = [Event.write ("/d1")]) ∧
      (∀ e ∈ pre, e.dirOf ≠ "/d1") ∧ (∀ e ∈ post, e.dirOf ≠ "/d1") :=
  writer_after_join_dirs_sequential (fun _ => some 40) default_file_types 100
    true true schedDemo walkTwo (by decide)
    (by intro d' _ p _ h; cases h) ⟨"/d1", ["a.jpg"]⟩ (by decide)
